import Mathlib

/-!
# munkres-cpp: `matrix_base.h`

A shallow embedding of `munkres_cpp::matrix_base<T>` (src/munkres-cpp/matrix_base.h)
and of its nested `iterator`, followed by theorems about the default `resize`,
`is_zero`, the cursor operators and the `begin()`-to-`end()` traversal.

Conventions of the embedding:

* `size_t` is an unsigned 64-bit integer: a `Nat` below `SIZE_MOD = 2 ^ 64`, and every
  `size_t` addition of the source is reduced modulo `SIZE_MOD`.
* The pure virtual members `rows ()`, `columns ()` and `operator () (row, column)` of a
  concrete matrix are the fields of `matrix_base`.
* Behaviour the C++ leaves undefined or signals by an exception is an explicit `Error`:
  the `std::logic_error` of `resize`, an element access outside
  `[0, rows) × [0, columns)`, and the division by `m.columns () == 0` in `operator ++`.
-/

namespace munkres_cpp

/-- Modulus of `size_t` arithmetic. -/
def SIZE_MOD : Nat := 2 ^ 64

/-- Failures of the embedded operations. -/
inductive Error where
  /-- The exception thrown by the default `resize`: `std::logic_error`. -/
  | logic_error
  /-- Element access with a coordinate outside `[0, rows) × [0, columns)`. -/
  | out_of_range
  /-- Integer division or remainder by zero. -/
  | division_by_zero
  deriving DecidableEq, Repr

/-- Result of running a loop with a step budget. -/
inductive Outcome (α : Type) where
  /-- The loop left through its exit test with this result. -/
  | done (a : α)
  /-- An operation inside the loop failed. -/
  | fault (e : Error)
  /-- The step budget ran out before the loop left. -/
  | out_of_fuel
  deriving DecidableEq, Repr

/-- Post-processing of the result of a finished loop. -/
def Outcome.map {α β : Type} (f : α → β) : Outcome α → Outcome β
  | .done a => .done (f a)
  | .fault e => .fault e
  | .out_of_fuel => .out_of_fuel

/-- The state of a concrete matrix seen through `matrix_base<T>`: the values returned by
the virtual `rows ()`, `columns ()` and `operator () (row, column)`. Both counts are
`size_t` values. -/
structure matrix_base (T : Type) where
  /-- Result of `rows ()`. -/
  rows : Nat
  /-- Result of `columns ()`. -/
  columns : Nat
  /-- The element slot addressed by `operator () (row, column)`. -/
  data : Nat → Nat → T
  /-- The count `rows ()` is a `size_t`. -/
  rows_lt : rows < SIZE_MOD
  /-- The count `columns ()` is a `size_t`. -/
  columns_lt : columns < SIZE_MOD

variable {T : Type}

/-- Read through `operator () (row, column)`: defined on `[0, rows) × [0, columns)`. -/
def matrix_base.operator_call (m : matrix_base T) (row column : Nat) : Except Error T :=
  if row < m.rows ∧ column < m.columns then .ok (m.data row column) else .error .out_of_range

/-- Default `resize (rows, columns, value)`:
`if (rows != this->rows () || columns != this->columns () ) throw std::logic_error (...)`.
Returns the matrix state after the call together with the way the call ended. -/
def matrix_base.resize (m : matrix_base T) (rows columns : Nat) (_value : T) :
    matrix_base T × Except Error Unit :=
  if rows ≠ m.rows ∨ columns ≠ m.columns then (m, .error .logic_error) else (m, .ok ())

/-- Integral overload of `is_zero (row, column)`: `operator () (row, column) == 0`. -/
def matrix_base.is_zero (m : matrix_base Int) (row column : Nat) : Except Error Bool :=
  (m.operator_call row column).map (fun x => x == 0)

/-- The nested `iterator`: the bound matrix `m` and the `size_t` coordinates `r`, `c`. -/
structure iterator (T : Type) where
  /-- The matrix the cursor is bound to. -/
  m : matrix_base T
  /-- Row coordinate. -/
  r : Nat
  /-- Column coordinate. -/
  c : Nat

/-- Comparison `operator ==`: `this->r == that.r && this->c == that.c`. -/
def iterator.operator_eq (self that : iterator T) : Bool :=
  self.r == that.r && self.c == that.c

/-- Comparison `operator !=`: `! operator == (that)`. -/
def iterator.operator_ne (self that : iterator T) : Bool :=
  !self.operator_eq that

/-- Dereference `operator *`: `m (r, c)`. -/
def iterator.operator_deref (self : iterator T) : Except Error T :=
  self.m.operator_call self.r self.c

/-- Increment `operator ++`:
`r += ++c / m.columns (); c = c % m.columns ();` in `size_t` arithmetic. -/
def iterator.operator_inc (self : iterator T) : Except Error (iterator T) :=
  let c1 := (self.c + 1) % SIZE_MOD
  if self.m.columns = 0 then .error .division_by_zero
  else .ok ⟨self.m, (self.r + c1 / self.m.columns) % SIZE_MOD, c1 % self.m.columns⟩

/-- Member `begin ()`: `iterator<> {* this, 0, 0}`. -/
def matrix_base.begin (m : matrix_base T) : iterator T := ⟨m, 0, 0⟩

/-- Member `end ()`: `iterator<> {* this, rows (), 0}`. -/
def matrix_base.end_ (m : matrix_base T) : iterator T := ⟨m, m.rows, 0⟩

/-- The cursor after `k` applications of `operator ++`. -/
def iterator.advance : Nat → iterator T → Except Error (iterator T)
  | 0, it => .ok it
  | k + 1, it =>
    match it.advance k with
    | .ok it1 => it1.operator_inc
    | .error e => .error e

/-- The loop `for (; it != last; ++it) body (it)` collecting the results of `body`, with
a budget of `fuel` evaluations of the loop test. Every collected result is followed by
one `operator ++`. -/
def for_each {β : Type} (last : iterator T) (body : iterator T → Except Error β) :
    Nat → iterator T → Outcome (List β)
  | 0, _ => .out_of_fuel
  | fuel + 1, it =>
    if it.operator_ne last then
      match body it with
      | .error e => .fault e
      | .ok b =>
        match it.operator_inc with
        | .ok it1 => (for_each last body fuel it1).map (fun l => b :: l)
        | .error e => .fault e
    else .done []

/-- Coordinates visited by `for (it = m.begin (); it != m.end (); ++it)`. -/
def matrix_base.traversal_coordinates (m : matrix_base T) (fuel : Nat) :
    Outcome (List (Nat × Nat)) :=
  for_each m.end_ (fun it => .ok (it.r, it.c)) fuel m.begin

/-- Values read by `for (it = m.begin (); it != m.end (); ++it)` through `* it`. -/
def matrix_base.traversal_values (m : matrix_base T) (fuel : Nat) : Outcome (List T) :=
  for_each m.end_ iterator.operator_deref fuel m.begin

/-- Row-major list of the coordinates of an `R × C` grid:
`(0,0), (0,1), ..., (0,C-1), (1,0), ..., (R-1,C-1)`. -/
def row_major (R C : Nat) : List (Nat × Nat) :=
  (List.range R).flatMap (fun r => (List.range C).map (fun c => (r, c)))

/-- Row-major flattening of a matrix: `m (r, c)` for `r = 0..rows-1`, and within each
row `c = 0..columns-1`. -/
def matrix_base.flatten (m : matrix_base T) : List T :=
  (row_major m.rows m.columns).map (fun p => m.data p.1 p.2)

/-- A matrix built from a list of rows of equal length `columns`; slots outside the
rows hold `0`. -/
def of_rows (columns : Nat) (cells : List (List Int)) (hr : cells.length < SIZE_MOD)
    (hc : columns < SIZE_MOD) : matrix_base Int :=
  ⟨cells.length, columns, fun r c => (cells.getD r []).getD c 0, hr, hc⟩

/-- The `2 × 3` matrix `[[0,1,2],[3,0,5]]`. -/
def example_2x3 : matrix_base Int :=
  of_rows 3 [[0, 1, 2], [3, 0, 5]] (by norm_num [SIZE_MOD]) (by norm_num [SIZE_MOD])

/-- A matrix with one row and no column, which holds no element. -/
def example_1x0 : matrix_base Int :=
  of_rows 0 [[]] (by norm_num [SIZE_MOD]) (by norm_num [SIZE_MOD])

/-- A matrix with no row and three columns, which holds no element. -/
def example_0x3 : matrix_base Int :=
  of_rows 3 [] (by norm_num [SIZE_MOD]) (by norm_num [SIZE_MOD])

/-- Modelled from the spec: the mutable `operator () (row, column)` is pure virtual in
`matrix_base.h`, and the concrete storage behind the returned reference is not in the
header. By the spec a matrix is a rectangular grid with one element per coordinate, mutable
in place, and both access operators address the same slot; so the assignment
`m (row, column) = x` on `[0, rows) × [0, columns)` replaces the element at
`(row, column)` and leaves the shape and every other slot as they were. -/
def matrix_base.operator_call_assign (m : matrix_base T) (row column : Nat) (x : T) :
    Except Error (matrix_base T) :=
  if row < m.rows ∧ column < m.columns then
    .ok ⟨m.rows, m.columns,
      fun r c => if r = row ∧ c = column then x else m.data r c, m.rows_lt, m.columns_lt⟩
  else .error .out_of_range

/-- Assignment through the dereference, `* it = x`: `operator *` returns the reference
`m (r, c)`, so this is `m (r, c) = x`. The cursor keeps its coordinates and stays bound
to the matrix, which now holds `x`. -/
def iterator.operator_deref_assign (self : iterator T) (x : T) : Except Error (iterator T) :=
  match self.m.operator_call_assign self.r self.c x with
  | .ok m1 => .ok ⟨m1, self.r, self.c⟩
  | .error e => .error e

/-- A matrix with one row and one column holding `x`. -/
def matrix_1x1 (x : T) : matrix_base T :=
  ⟨1, 1, fun _ _ => x, by norm_num [SIZE_MOD], by norm_num [SIZE_MOD]⟩

/-! ### Floating-point element types

`std::fpclassify` and the floating-point `==` belong to `<cmath>` and to the arithmetic of
the machine, not to the header. They are modelled on the IEEE 754 binary encodings: a
value is a sign bit, a biased exponent field and a fraction field. -/

/-- The floating-point element types: `float` (binary32), `double` (binary64) and the
two usual `long double` formats, the x87 extended format (15-bit exponent, 64-bit
significand; only its canonical encodings, whose leading significand bit follows from
the exponent field) and binary128. -/
inductive fp_type where
  | float
  | double
  | long_double_x87
  | long_double_quad
  deriving DecidableEq, Repr

/-- Width of the exponent field. -/
def fp_type.ebits : fp_type → Nat
  | .float => 8
  | .double => 11
  | .long_double_x87 => 15
  | .long_double_quad => 15

/-- Width of the fraction field (the significand without its leading bit). -/
def fp_type.fbits : fp_type → Nat
  | .float => 23
  | .double => 52
  | .long_double_x87 => 63
  | .long_double_quad => 112

/-- The all-ones exponent field, which marks infinities and NaNs. -/
def fp_type.exponent_max (F : fp_type) : Nat := 2 ^ F.ebits - 1

/-- A stored floating-point value of type `F`, as its three fields. -/
structure ieee (F : fp_type) where
  /-- Sign bit: `true` for a negative value. -/
  sign : Bool
  /-- Biased exponent field. -/
  exponent : Nat
  /-- Fraction field. -/
  fraction : Nat
  /-- The exponent field has `ebits` bits. -/
  exponent_le : exponent ≤ F.exponent_max
  /-- The fraction field has `fbits` bits. -/
  fraction_lt : fraction < 2 ^ F.fbits
  deriving DecidableEq

/-- The classes returned by `std::fpclassify`. -/
inductive fp_class where
  | FP_NAN
  | FP_INFINITE
  | FP_ZERO
  | FP_SUBNORMAL
  | FP_NORMAL
  deriving DecidableEq, Repr

/-- Modelled from the spec: `std::fpclassify` of `<cmath>` is called by the header but is
not part of it. The spec describes it as the IEEE classification of a value into the
zero, subnormal, normal, infinite and NaN classes, the zero class covering `+0.0` and
`-0.0`; on the encoding that is a case split on the exponent and fraction fields. -/
def fpclassify {F : fp_type} (x : ieee F) : fp_class :=
  if x.exponent = 0 then
    if x.fraction = 0 then .FP_ZERO else .FP_SUBNORMAL
  else if x.exponent = F.exponent_max then
    if x.fraction = 0 then .FP_INFINITE else .FP_NAN
  else .FP_NORMAL

/-- Non-integral overload of `is_zero (row, column)`:
`FP_ZERO == std::fpclassify (operator () (row, column) )`. -/
def matrix_base.is_zero_floating {F : fp_type} (m : matrix_base (ieee F))
    (row column : Nat) : Except Error Bool :=
  (m.operator_call row column).map (fun x => fp_class.FP_ZERO == fpclassify x)

/-- The values `+0.0` (`sign = false`) and `-0.0` (`sign = true`). -/
def ieee.zero (F : fp_type) (sign : Bool) : ieee F :=
  ⟨sign, 0, 0, Nat.zero_le _, Nat.pow_pos (by decide)⟩

/-- The value with the given sign whose exponent and fraction fields, read as one binary
number, are `bits`; an exponent beyond the field saturates. -/
def ieee.of_bits (F : fp_type) (sign : Bool) (bits : Nat) : ieee F :=
  ⟨sign, min (bits / 2 ^ F.fbits) F.exponent_max, bits % 2 ^ F.fbits,
    Nat.min_le_right _ _, Nat.mod_lt _ (Nat.pow_pos (by decide))⟩

/-- A NaN has the all-ones exponent field and a non-zero fraction field. -/
def ieee.is_nan {F : fp_type} (x : ieee F) : Bool :=
  x.exponent == F.exponent_max && x.fraction != 0

/-- The absolute value of `x`, counted in units of the least subnormal
`2 ^ (2 - bias - fbits)`: the fraction for a subnormal, the significand with its leading
bit shifted by the exponent for a normal value. An infinity gets the power of two that
follows the largest finite value. -/
def ieee.magnitude {F : fp_type} (x : ieee F) : Nat :=
  if x.exponent = 0 then x.fraction
  else (2 ^ F.fbits + x.fraction) * 2 ^ (x.exponent - 1)

/-- The value of `x` with its sign, in units of the least subnormal; `+0.0` and `-0.0`
are both `0`. -/
def ieee.signed_magnitude {F : fp_type} (x : ieee F) : Int :=
  if x.sign then -(x.magnitude : Int) else (x.magnitude : Int)

/-- Modelled from the spec: the floating-point comparison `x == y` is the machine's, not
the header's. It is the IEEE 754 equality the spec calls the naive equality check: false
when either operand is a NaN, and otherwise true exactly when both have the same value. -/
def ieee.operator_eq {F : fp_type} (x y : ieee F) : Bool :=
  !x.is_nan && !y.is_nan && x.signed_magnitude == y.signed_magnitude

theorem columns_add_one_lt (m : matrix_base T) {c : Nat} (hc : c < m.columns) :
    c + 1 < SIZE_MOD :=
  Nat.lt_of_le_of_lt hc m.columns_lt

/-- With a non-zero divisor and no `size_t` overflow, `operator ++` computes
`(r + (c + 1) / columns, (c + 1) % columns)`. -/
theorem operator_inc_exact (m : matrix_base T) (r c : Nat) (hC : 1 ≤ m.columns)
    (hc : c + 1 < SIZE_MOD) (hr : r + (c + 1) / m.columns < SIZE_MOD) :
    (iterator.mk m r c).operator_inc
      = .ok ⟨m, r + (c + 1) / m.columns, (c + 1) % m.columns⟩ := by
  have h0 : m.columns ≠ 0 := by omega
  simp [iterator.operator_inc, h0, Nat.mod_eq_of_lt hc, Nat.mod_eq_of_lt hr]

/-- Increment of the cursor at linear index `k`, written `(k / columns, k % columns)`. -/
theorem operator_inc_linear (m : matrix_base T) (k : Nat) (hC : 1 ≤ m.columns)
    (hk : (k + 1) / m.columns < SIZE_MOD) :
    (iterator.mk m (k / m.columns) (k % m.columns)).operator_inc
      = .ok ⟨m, (k + 1) / m.columns, (k + 1) % m.columns⟩ := by
  have hpos : 0 < m.columns := hC
  have hlt : k % m.columns < m.columns := Nat.mod_lt _ hpos
  have hsplit : k + 1 = m.columns * (k / m.columns) + (k % m.columns + 1) := by
    have := Nat.div_add_mod k m.columns
    omega
  have hdiv : (k + 1) / m.columns = k / m.columns + (k % m.columns + 1) / m.columns := by
    conv_lhs => rw [hsplit]
    rw [Nat.mul_add_div hpos]
  have hmod : (k + 1) % m.columns = (k % m.columns + 1) % m.columns := by
    conv_lhs => rw [hsplit]
    rw [Nat.mul_add_mod]
  rw [operator_inc_exact m _ _ hC (columns_add_one_lt m hlt) (by rw [← hdiv]; exact hk),
    ← hdiv, ← hmod]

/-- After `k` increments from `begin ()` the cursor stands at `(k / columns, k % columns)`,
as long as the row `k / columns` is a `size_t`. -/
theorem advance_begin (m : matrix_base T) (hC : 1 ≤ m.columns) :
    ∀ k : Nat, k / m.columns < SIZE_MOD →
      m.begin.advance k = .ok ⟨m, k / m.columns, k % m.columns⟩ := by
  intro k
  induction k with
  | zero => intro _; simp [iterator.advance, matrix_base.begin]
  | succ k ih =>
    intro hk
    have hle : k / m.columns ≤ (k + 1) / m.columns := Nat.div_le_div_right (Nat.le_succ k)
    rw [iterator.advance, ih (Nat.lt_of_le_of_lt hle hk)]
    exact operator_inc_linear m k hC hk

/-- Increments never rebind the cursor. -/
theorem advance_m (k : Nat) : ∀ (it it1 : iterator T), it.advance k = .ok it1 → it1.m = it.m := by
  induction k with
  | zero =>
    intro it it1 h
    simp only [iterator.advance, Except.ok.injEq] at h
    rw [h]
  | succ k ih =>
    intro it it1 h
    rw [iterator.advance] at h
    cases hk : it.advance k with
    | error e => rw [hk] at h; cases h
    | ok it2 =>
      rw [hk] at h
      have h2 := ih it it2 hk
      unfold iterator.operator_inc at h
      by_cases h0 : it2.m.columns = 0
      · simp [h0] at h
      · simp only [h0, if_false, Except.ok.injEq] at h
        rw [← h, ← h2]

theorem index_div_lt {R C k : Nat} (h : k < R * C) : k / C < R :=
  Nat.div_lt_of_lt_mul (by rw [Nat.mul_comm]; exact h)

theorem index_mod_lt {R C k : Nat} (h : k < R * C) : k % C < C :=
  Nat.mod_lt _ (Nat.pos_of_ne_zero (by rintro rfl; simp at h))

theorem end_index (m : matrix_base T) (hC : 1 ≤ m.columns) :
    (iterator.mk m (m.rows * m.columns / m.columns) (m.rows * m.columns % m.columns))
      = m.end_ := by
  have hpos : 0 < m.columns := hC
  simp [matrix_base.end_, Nat.mul_div_cancel _ hpos]

/-- The loop started at linear index `k` with `n` cells left and more than `n` units of
fuel leaves normally, having collected the body's results at the indices `k .. k+n-1`. -/
theorem for_each_linear {β : Type} (m : matrix_base T) (hC : 1 ≤ m.columns)
    (body : iterator T → Except Error β) (g : Nat → β)
    (hbody : ∀ i, i < m.rows * m.columns →
      body ⟨m, i / m.columns, i % m.columns⟩ = .ok (g i)) :
    ∀ (n k fuel : Nat), k + n = m.rows * m.columns → n < fuel →
      for_each m.end_ body fuel ⟨m, k / m.columns, k % m.columns⟩
        = .done ((List.range' k n).map g) := by
  intro n
  induction n with
  | zero =>
    intro k fuel hk hf
    obtain ⟨f, rfl⟩ : ∃ f, fuel = f + 1 := ⟨fuel - 1, by omega⟩
    have hk1 : k = m.rows * m.columns := by omega
    subst hk1
    rw [end_index m hC]
    simp [for_each, iterator.operator_ne, iterator.operator_eq]
  | succ n ih =>
    intro k fuel hk hf
    obtain ⟨f, rfl⟩ : ∃ f, fuel = f + 1 := ⟨fuel - 1, by omega⟩
    have hlt : k < m.rows * m.columns := by omega
    have hrow : k / m.columns < m.rows := index_div_lt hlt
    have hne : (iterator.mk m (k / m.columns) (k % m.columns)).operator_ne m.end_ = true := by
      have : k / m.columns ≠ m.rows := Nat.ne_of_lt hrow
      simp [iterator.operator_ne, iterator.operator_eq, matrix_base.end_, this]
    have hnext : (k + 1) / m.columns < SIZE_MOD := by
      have h1 : (k + 1) / m.columns ≤ m.rows * m.columns / m.columns :=
        Nat.div_le_div_right (by omega)
      rw [Nat.mul_div_cancel _ (show 0 < m.columns from hC)] at h1
      exact Nat.lt_of_le_of_lt h1 m.rows_lt
    rw [for_each, if_pos hne, hbody k hlt]
    simp only [operator_inc_linear m k hC hnext]
    rw [ih (k + 1) f (by omega) (by omega)]
    simp [Outcome.map, List.range'_succ]

/-- With no more fuel than cells left, the loop started at linear index `k` does not
finish. -/
theorem for_each_short {β : Type} (m : matrix_base T) (hC : 1 ≤ m.columns)
    (body : iterator T → Except Error β) (g : Nat → β)
    (hbody : ∀ i, i < m.rows * m.columns →
      body ⟨m, i / m.columns, i % m.columns⟩ = .ok (g i)) :
    ∀ (fuel n k : Nat), k + n = m.rows * m.columns → fuel ≤ n →
      for_each m.end_ body fuel ⟨m, k / m.columns, k % m.columns⟩ = .out_of_fuel := by
  intro fuel
  induction fuel with
  | zero => intro n k _ _; rfl
  | succ f ih =>
    intro n k hk hf
    have hlt : k < m.rows * m.columns := by omega
    have hrow : k / m.columns < m.rows := index_div_lt hlt
    have hne : (iterator.mk m (k / m.columns) (k % m.columns)).operator_ne m.end_ = true := by
      have : k / m.columns ≠ m.rows := Nat.ne_of_lt hrow
      simp [iterator.operator_ne, iterator.operator_eq, matrix_base.end_, this]
    have hnext : (k + 1) / m.columns < SIZE_MOD := by
      have h1 : (k + 1) / m.columns ≤ m.rows * m.columns / m.columns :=
        Nat.div_le_div_right (by omega)
      rw [Nat.mul_div_cancel _ (show 0 < m.columns from hC)] at h1
      exact Nat.lt_of_le_of_lt h1 m.rows_lt
    rw [for_each, if_pos hne, hbody k hlt]
    simp only [operator_inc_linear m k hC hnext]
    rw [ih (n - 1) (k + 1) (by omega) (by omega)]
    rfl

/-- The row-major list is the list of linear indices `0 .. R*C-1` split into
`(i / C, i % C)`. -/
theorem row_major_eq_map (R C : Nat) :
    row_major R C = (List.range' 0 (R * C)).map (fun i => (i / C, i % C)) := by
  induction R with
  | zero => simp [row_major]
  | succ R ih =>
    have hsplit : List.range' 0 ((R + 1) * C) = List.range' 0 (R * C) ++ List.range' (R * C) C := by
      have h := List.range'_append_1 0 (R * C) C
      rw [Nat.zero_add] at h
      rw [Nat.succ_mul, h, Nat.add_comm]
    have hrow : (List.range' (R * C) C).map (fun i => (i / C, i % C))
        = (List.range C).map (fun c => (R, c)) := by
      rw [List.range_eq_range']
      apply List.ext_getElem
      · simp
      · intro i h1 h2
        have hi : i < C := by simpa using h1
        have hpos : 0 < C := by omega
        simp [List.getElem_range', Nat.mul_comm R C, Nat.mul_add_div hpos,
          Nat.mul_add_mod, Nat.div_eq_of_lt hi, Nat.mod_eq_of_lt hi]
    unfold row_major at ih ⊢
    rw [List.range_succ, List.flatMap_append, ih, hsplit, List.map_append, hrow]
    simp

theorem row_major_length (R C : Nat) : (row_major R C).length = R * C := by
  simp [row_major_eq_map]

theorem row_major_nodup (R C : Nat) : (row_major R C).Nodup := by
  rw [row_major_eq_map]
  refine List.Nodup.map_on ?_ (List.nodup_range' 0 (R * C))
  intro i _ j _ h
  simp only [Prod.mk.injEq] at h
  have hi := Nat.div_add_mod i C
  have hj := Nat.div_add_mod j C
  rw [h.1, h.2] at hi
  omega

theorem mem_row_major (R C r c : Nat) : (r, c) ∈ row_major R C ↔ r < R ∧ c < C := by
  simp [row_major]

/-- With at least one column and more fuel than cells, the coordinate traversal leaves
normally with the row-major list of coordinates. -/
theorem traversal_coordinates_done (m : matrix_base T) (hC : 1 ≤ m.columns) (fuel : Nat)
    (hf : m.rows * m.columns < fuel) :
    m.traversal_coordinates fuel = .done (row_major m.rows m.columns) := by
  have h := for_each_linear m hC (fun it => .ok (it.r, it.c))
    (fun i => (i / m.columns, i % m.columns)) (fun _ _ => rfl)
    (m.rows * m.columns) 0 fuel (by omega) hf
  simp only [Nat.zero_div, Nat.zero_mod] at h
  rw [row_major_eq_map]
  exact h

/-- With at least one column and more fuel than cells, the value traversal leaves
normally with the row-major flattening. -/
theorem traversal_values_done (m : matrix_base T) (hC : 1 ≤ m.columns) (fuel : Nat)
    (hf : m.rows * m.columns < fuel) :
    m.traversal_values fuel = .done m.flatten := by
  have hbody : ∀ i, i < m.rows * m.columns →
      iterator.operator_deref ⟨m, i / m.columns, i % m.columns⟩
        = .ok (m.data (i / m.columns) (i % m.columns)) := by
    intro i hi
    simp [iterator.operator_deref, matrix_base.operator_call, index_div_lt hi,
      index_mod_lt hi]
  have h := for_each_linear m hC iterator.operator_deref
    (fun i => m.data (i / m.columns) (i % m.columns)) hbody
    (m.rows * m.columns) 0 fuel (by omega) hf
  simp only [Nat.zero_div, Nat.zero_mod] at h
  unfold matrix_base.flatten
  rw [row_major_eq_map, List.map_map]
  exact h

/-- With at least one column and no more fuel than cells, the coordinate traversal does
not finish: the loop needs `rows * columns` increments. -/
theorem traversal_coordinates_short (m : matrix_base T) (hC : 1 ≤ m.columns) (fuel : Nat)
    (hf : fuel ≤ m.rows * m.columns) :
    m.traversal_coordinates fuel = .out_of_fuel := by
  have h := for_each_short m hC (fun it => .ok (it.r, it.c))
    (fun i => (i / m.columns, i % m.columns)) (fun _ _ => rfl)
    fuel (m.rows * m.columns) 0 (by omega) hf
  simp only [Nat.zero_div, Nat.zero_mod] at h
  exact h

/-- With at least one column and no more fuel than cells, the value traversal does not
finish. -/
theorem traversal_values_short (m : matrix_base T) (hC : 1 ≤ m.columns) (fuel : Nat)
    (hf : fuel ≤ m.rows * m.columns) :
    m.traversal_values fuel = .out_of_fuel := by
  have hbody : ∀ i, i < m.rows * m.columns →
      iterator.operator_deref ⟨m, i / m.columns, i % m.columns⟩
        = .ok (m.data (i / m.columns) (i % m.columns)) := by
    intro i hi
    simp [iterator.operator_deref, matrix_base.operator_call, index_div_lt hi,
      index_mod_lt hi]
  have h := for_each_short m hC iterator.operator_deref
    (fun i => m.data (i / m.columns) (i % m.columns)) hbody
    fuel (m.rows * m.columns) 0 (by omega) hf
  simp only [Nat.zero_div, Nat.zero_mod] at h
  exact h

/-- Reading a slot inside the grid returns the stored element. -/
theorem operator_call_in_range (m : matrix_base T) {r c : Nat} (hr : r < m.rows)
    (hc : c < m.columns) : m.operator_call r c = .ok (m.data r c) := by
  simp [matrix_base.operator_call, hr, hc]

theorem exponent_max_pos (F : fp_type) : 0 < F.exponent_max := by
  cases F <;> decide

/-- Only the two zeros have magnitude `0`. -/
theorem magnitude_eq_zero_iff {F : fp_type} (x : ieee F) :
    x.magnitude = 0 ↔ (x.exponent = 0 ∧ x.fraction = 0) := by
  unfold ieee.magnitude
  by_cases h : x.exponent = 0
  · simp [h]
  · have hpos : 0 < (2 ^ F.fbits + x.fraction) * 2 ^ (x.exponent - 1) :=
      Nat.mul_pos (Nat.add_pos_left (Nat.pow_pos (by decide)) _) (Nat.pow_pos (by decide))
    simp only [h, if_false, false_and, iff_false]
    omega

/-- The class is `FP_ZERO` exactly for the encodings with both fields `0`. -/
theorem fpclassify_zero_iff {F : fp_type} (x : ieee F) :
    fpclassify x = .FP_ZERO ↔ (x.exponent = 0 ∧ x.fraction = 0) := by
  unfold fpclassify
  split_ifs <;> simp_all

/-- IEEE equality with `+0.0` answers what the classification test answers. -/
theorem operator_eq_zero {F : fp_type} (x : ieee F) :
    x.operator_eq (ieee.zero F false) = decide (fpclassify x = .FP_ZERO) := by
  have hmax := exponent_max_pos F
  have hz : (ieee.zero F false).signed_magnitude = 0 := by
    simp [ieee.signed_magnitude, ieee.magnitude, ieee.zero]
  have hzn : (ieee.zero F false).is_nan = false := by
    simp [ieee.is_nan, ieee.zero]
  by_cases h : x.exponent = 0 ∧ x.fraction = 0
  · have hc : fpclassify x = .FP_ZERO := (fpclassify_zero_iff x).2 h
    have hm : x.magnitude = 0 := (magnitude_eq_zero_iff x).2 h
    have hn : x.is_nan = false := by
      have : x.exponent ≠ F.exponent_max := by omega
      simp [ieee.is_nan, this]
    have hs : x.signed_magnitude = 0 := by
      simp [ieee.signed_magnitude, hm]
    simp [ieee.operator_eq, hn, hzn, hs, hz, hc]
  · have hc : ¬ fpclassify x = .FP_ZERO := fun hc => h ((fpclassify_zero_iff x).1 hc)
    have hm : x.magnitude ≠ 0 := fun hm => h ((magnitude_eq_zero_iff x).1 hm)
    have hs : x.signed_magnitude ≠ 0 := by
      unfold ieee.signed_magnitude
      split <;> simp [hm]
    simp [ieee.operator_eq, hz, hs, hc]

/-- In range, the floating-point `is_zero` is the classification test on the stored
value. -/
theorem is_zero_floating_in_range {F : fp_type} (m : matrix_base (ieee F)) {r c : Nat}
    (hr : r < m.rows) (hc : c < m.columns) :
    m.is_zero_floating r c = .ok (decide (fpclassify (m.data r c) = .FP_ZERO)) := by
  have hcall : m.operator_call r c = .ok (m.data r c) := by
    simp [matrix_base.operator_call, hr, hc]
  simp only [matrix_base.is_zero_floating, hcall, Except.map]
  congr 1
  by_cases h : fpclassify (m.data r c) = .FP_ZERO
  · simp [h]
  · have h1 : ¬ fp_class.FP_ZERO = fpclassify (m.data r c) := fun h1 => h h1.symm
    simp [h, h1]

/-- C1 (fails on a matrix with a row and no column): for the `1 × 0` matrix, whose
row-major coordinate list is empty, the traversal `begin ()`, `operator ++` until
`end ()` never leaves normally: `begin ()` differs from `end ()`, and the first
`operator ++` divides by `columns () = 0`. -/
theorem C1_traversal_faults_without_columns :
    example_1x0.rows = 1 ∧ example_1x0.columns = 0 ∧ row_major 1 0 = [] ∧
    example_1x0.begin.operator_ne example_1x0.end_ = true ∧
    example_1x0.begin.operator_inc = .error .division_by_zero ∧
    example_1x0.traversal_coordinates 0 = .out_of_fuel ∧
    ∀ fuel : Nat, example_1x0.traversal_coordinates (fuel + 1) = .fault .division_by_zero :=
  ⟨rfl, rfl, rfl, rfl, rfl, rfl, fun _ => rfl⟩

/-- C2 (fails on a matrix with a row and no column): for the `1 × 0` matrix, whose
row-major flattening is empty, the traversal that dereferences every visited cursor
never leaves normally: its first dereference, at `(0, 0)`, is out of range. On the
`2 × 3` matrix `[[0,1,2],[3,0,5]]` the traversal yields `0,1,2,3,0,5`. -/
theorem C2_values_fault_without_columns :
    example_1x0.flatten = [] ∧
    example_1x0.begin.operator_deref = .error .out_of_range ∧
    example_1x0.traversal_values 0 = .out_of_fuel ∧
    (∀ fuel : Nat, example_1x0.traversal_values (fuel + 1) = .fault .out_of_range) ∧
    example_2x3.flatten = [0, 1, 2, 3, 0, 5] ∧
    ∀ fuel : Nat, example_2x3.traversal_values (fuel + 7) = .done [0, 1, 2, 3, 0, 5] := by
  refine ⟨rfl, rfl, rfl, fun _ => rfl, rfl, fun fuel => ?_⟩
  have h := traversal_values_done example_2x3 (by decide) (fuel + 7)
    (by show 2 * 3 < fuel + 7; omega)
  rw [h]
  rfl

/-- C3: the default `resize (R, C, v)` ends with the logic error exactly when
`(R, C) ≠ (rows (), columns ())`, that is when the row count or the column count differs,
and returns normally exactly when both match. -/
theorem C3_resize_raises_iff (m : matrix_base T) (R C : Nat) (v : T) :
    ((m.resize R C v).2 = .error .logic_error ↔ (R, C) ≠ (m.rows, m.columns)) ∧
    ((m.resize R C v).2 = .error .logic_error ↔ (R ≠ m.rows ∨ C ≠ m.columns)) ∧
    ((m.resize R C v).2 = .ok () ↔ (R = m.rows ∧ C = m.columns)) := by
  by_cases hR : R = m.rows <;> by_cases hC : C = m.columns <;>
    simp [matrix_base.resize, hR, hC]

/-- C4: the default `resize (R, C, v)` leaves the matrix state as it was, whether it
returned normally or raised: `rows ()`, `columns ()` and every element slot are
unchanged, for every fill value `v`. -/
theorem C4_resize_keeps_state (m : matrix_base T) (R C : Nat) (v : T) :
    (m.resize R C v).1 = m ∧
    (m.resize R C v).1.rows = m.rows ∧
    (m.resize R C v).1.columns = m.columns ∧
    (∀ r c : Nat, (m.resize R C v).1.data r c = m.data r c) ∧
    (∀ r c : Nat, (m.resize R C v).1.operator_call r c = m.operator_call r c) := by
  have h : (m.resize R C v).1 = m := by
    unfold matrix_base.resize
    split <;> rfl
  rw [h]
  exact ⟨rfl, rfl, rfl, fun _ _ => rfl, fun _ _ => rfl⟩

/-- C5: for an integral element type and a valid coordinate `(r, c)`, `is_zero (r, c)`
returns `true` exactly when the element at `(r, c)` equals `0`; on the `2 × 3` matrix
`[[0,1,2],[3,0,5]]` it is `true` at `(0,0)` and `(1,1)` and `false` at the four others. -/
theorem C5_is_zero_integral :
    (∀ (m : matrix_base Int) (r c : Nat), r < m.rows → c < m.columns →
      m.operator_call r c = .ok (m.data r c) ∧
      m.is_zero r c = .ok (decide (m.data r c = 0)) ∧
      (m.is_zero r c = .ok true ↔ m.data r c = 0) ∧
      (m.is_zero r c = .ok false ↔ m.data r c ≠ 0)) ∧
    example_2x3.is_zero 0 0 = .ok true ∧ example_2x3.is_zero 0 1 = .ok false ∧
    example_2x3.is_zero 0 2 = .ok false ∧ example_2x3.is_zero 1 0 = .ok false ∧
    example_2x3.is_zero 1 1 = .ok true ∧ example_2x3.is_zero 1 2 = .ok false := by
  refine ⟨?_, rfl, rfl, rfl, rfl, rfl, rfl⟩
  intro m r c hr hc
  have hcall : m.operator_call r c = .ok (m.data r c) := by
    simp [matrix_base.operator_call, hr, hc]
  have hz : m.is_zero r c = .ok (decide (m.data r c = 0)) := by
    simp only [matrix_base.is_zero, hcall, Except.map]
    rfl
  refine ⟨hcall, hz, ?_, ?_⟩ <;> rw [hz] <;> simp

/-- Witness of C5 on the `2 × 3` matrix at `(1, 1)`. -/
theorem C5_is_zero_integral_witness :
    (1 < example_2x3.rows ∧ 1 < example_2x3.columns) ∧
    (example_2x3.is_zero 1 1 = .ok true ↔ example_2x3.data 1 1 = 0) :=
  ⟨⟨by decide, by decide⟩,
    (C5_is_zero_integral.1 example_2x3 1 1 (by decide) (by decide)).2.2.1⟩

/-- C7: two cursors compare equal with `operator ==` exactly when their rows are equal
and their columns are equal; the bound matrices take no part (replacing them by any
other matrices leaves the comparison unchanged, and cursors on the two different
matrices `example_2x3` and `example_1x0` at the same coordinate compare equal), and
`operator !=` is the negation of `operator ==`. -/
theorem C7_cursor_equality (a b : iterator T) :
    (a.operator_eq b = true ↔ (a.r = b.r ∧ a.c = b.c)) ∧
    a.operator_ne b = !a.operator_eq b ∧
    (∀ m1 m2 : matrix_base T,
      (iterator.mk m1 a.r a.c).operator_eq ⟨m2, b.r, b.c⟩ = a.operator_eq b) ∧
    (example_2x3 ≠ example_1x0 ∧
      (iterator.mk example_2x3 1 0).operator_eq ⟨example_1x0, 1, 0⟩ = true ∧
      (iterator.mk example_2x3 1 0).operator_ne ⟨example_1x0, 1, 0⟩ = false) := by
  refine ⟨?_, rfl, fun _ _ => rfl, ?_, rfl, rfl⟩
  · simp [iterator.operator_eq]
  · intro h
    have hrows : example_2x3.rows = example_1x0.rows := by rw [h]
    exact absurd hrows (by decide)

/-- C8: `begin ()` is the cursor bound to the matrix at `(0, 0)` and `end ()` the cursor
bound to the matrix at `(rows (), 0)`; after any number of increments of a cursor
obtained from `begin ()`, the matrix the cursor is bound to is still the same, so
`begin ()` and `end ()` called again give the same cursors. -/
theorem C8_begin_end (m : matrix_base T) :
    (m.begin.m = m ∧ m.begin.r = 0 ∧ m.begin.c = 0) ∧
    (m.end_.m = m ∧ m.end_.r = m.rows ∧ m.end_.c = 0) ∧
    (∀ (k : Nat) (it : iterator T), m.begin.advance k = .ok it →
      it.m = m ∧ it.m.begin = m.begin ∧ it.m.end_ = m.end_ ∧
      it.m.begin.r = 0 ∧ it.m.begin.c = 0) := by
  refine ⟨⟨rfl, rfl, rfl⟩, ⟨rfl, rfl, rfl⟩, ?_⟩
  intro k it h
  have hm : it.m = m := advance_m k m.begin it h
  rw [hm]
  exact ⟨rfl, rfl, rfl, rfl, rfl⟩

/-- Witness of C8: after four increments on the `2 × 3` matrix the cursor stands at
`(1, 1)` and `begin ()` is again the cursor at `(0, 0)`. -/
theorem C8_begin_end_witness :
    example_2x3.begin.advance 4 = .ok ⟨example_2x3, 1, 1⟩ ∧
    (iterator.mk example_2x3 1 1).m.begin = example_2x3.begin :=
  ⟨rfl, ((C8_begin_end example_2x3).2.2 4 ⟨example_2x3, 1, 1⟩ rfl).2.1⟩

/-- C9: on a matrix with `R` rows and `C ≥ 1` columns, the cursor after `k ≤ R * C`
increments from `begin ()` stands at `(k / C, k % C)`; it differs from `end ()` when
`k < R * C` and equals `end ()` when `k = R * C`; the loop
`for (it = begin (); it != end (); ++it)` leaves normally after visiting `R * C` cursors,
one increment each: every budget above `R * C` loop tests is enough and no smaller
budget is. -/
theorem C9_traversal_finite (m : matrix_base T) (hC : 1 ≤ m.columns) :
    (∀ k : Nat, k ≤ m.rows * m.columns →
      m.begin.advance k = .ok ⟨m, k / m.columns, k % m.columns⟩) ∧
    (∀ k : Nat, k < m.rows * m.columns →
      (iterator.mk m (k / m.columns) (k % m.columns)).operator_ne m.end_ = true) ∧
    (iterator.mk m (m.rows * m.columns / m.columns)
      (m.rows * m.columns % m.columns)).operator_eq m.end_ = true ∧
    (∀ fuel : Nat, m.rows * m.columns < fuel →
      m.traversal_coordinates fuel = .done (row_major m.rows m.columns)) ∧
    (row_major m.rows m.columns).length = m.rows * m.columns ∧
    (∀ fuel : Nat, fuel ≤ m.rows * m.columns →
      m.traversal_coordinates fuel = .out_of_fuel) := by
  refine ⟨?_, ?_, ?_, fun fuel hf => traversal_coordinates_done m hC fuel hf,
    row_major_length _ _, fun fuel hf => traversal_coordinates_short m hC fuel hf⟩
  · intro k hk
    apply advance_begin m hC k
    have h1 : k / m.columns ≤ m.rows * m.columns / m.columns := Nat.div_le_div_right hk
    rw [Nat.mul_div_cancel _ (show 0 < m.columns from hC)] at h1
    exact Nat.lt_of_le_of_lt h1 m.rows_lt
  · intro k hk
    have : k / m.columns ≠ m.rows := Nat.ne_of_lt (index_div_lt hk)
    simp [iterator.operator_ne, iterator.operator_eq, matrix_base.end_, this]
  · rw [end_index m hC]
    simp [iterator.operator_eq]

/-- Witness of C9 on the `2 × 3` matrix: six increments lead from `begin ()` to
`end ()`, and the loop leaves normally with seven loop tests. -/
theorem C9_traversal_finite_witness :
    1 ≤ example_2x3.columns ∧
    example_2x3.begin.advance 6 = .ok example_2x3.end_ ∧
    example_2x3.traversal_coordinates 7
      = .done [(0, 0), (0, 1), (0, 2), (1, 0), (1, 1), (1, 2)] ∧
    example_2x3.traversal_coordinates 6 = .out_of_fuel :=
  ⟨by decide,
    (C9_traversal_finite example_2x3 (by decide)).1 6 (by decide),
    (C9_traversal_finite example_2x3 (by decide)).2.2.2.1 7 (by decide),
    (C9_traversal_finite example_2x3 (by decide)).2.2.2.2.2 6 (by decide)⟩

/-- C10 as stated fails at the last `size_t` row: on the `2 × 3` matrix the cursor at
`(2 ^ 64 - 1, 2)` has `c < C` and `c + 1 = C`, and one increment moves it to `(0, 0)`,
which is not `(r + 1, 0)`. -/
theorem C10_counterexample :
    1 ≤ example_2x3.columns ∧ (2 : Nat) < example_2x3.columns ∧
    2 + 1 = example_2x3.columns ∧ 2 ^ 64 - 1 < SIZE_MOD ∧
    (iterator.mk example_2x3 (2 ^ 64 - 1) 2).operator_inc = .ok ⟨example_2x3, 0, 0⟩ ∧
    (iterator.mk example_2x3 (2 ^ 64 - 1) 2).operator_inc
      ≠ .ok ⟨example_2x3, 2 ^ 64 - 1 + 1, 0⟩ := by
  have hinc : (iterator.mk example_2x3 (2 ^ 64 - 1) 2).operator_inc
      = .ok ⟨example_2x3, 0, 0⟩ := by
    simp [iterator.operator_inc, example_2x3, of_rows, SIZE_MOD]
  refine ⟨by decide, by decide, by decide, by norm_num [SIZE_MOD], hinc, ?_⟩
  rw [hinc]
  intro h
  have hr : (0 : Nat) = 2 ^ 64 - 1 + 1 := congrArg iterator.r (Except.ok.inj h)
  norm_num at hr

/-- C10 (amended): on a matrix with `C ≥ 1` columns, one increment of the cursor at
`(r, c)` with `c < C` moves it to `(r, c + 1)` when `c + 1 < C` and to
`((r + 1) mod 2 ^ 64, 0)` when `c + 1 = C`, which is `(r + 1, 0)` whenever `r + 1` does
not overflow `size_t`; the cursor stays bound to the same, unmodified matrix. -/
theorem C10_increment_step (m : matrix_base T) (r c : Nat) (hC : 1 ≤ m.columns)
    (hr : r < SIZE_MOD) (hc : c < m.columns) :
    (c + 1 < m.columns → (iterator.mk m r c).operator_inc = .ok ⟨m, r, c + 1⟩) ∧
    (c + 1 = m.columns →
      (iterator.mk m r c).operator_inc = .ok ⟨m, (r + 1) % SIZE_MOD, 0⟩) ∧
    (c + 1 = m.columns → r + 1 < SIZE_MOD →
      (iterator.mk m r c).operator_inc = .ok ⟨m, r + 1, 0⟩) ∧
    (∀ it : iterator T, (iterator.mk m r c).operator_inc = .ok it → it.m = m) := by
  have h0 : m.columns ≠ 0 := by omega
  have hc1 : (c + 1) % SIZE_MOD = c + 1 := Nat.mod_eq_of_lt (columns_add_one_lt m hc)
  refine ⟨?_, ?_, ?_, ?_⟩
  · intro h
    simp [iterator.operator_inc, h0, hc1, Nat.div_eq_of_lt h, Nat.mod_eq_of_lt h,
      Nat.mod_eq_of_lt hr]
  · intro h
    simp [iterator.operator_inc, h0, h, Nat.mod_eq_of_lt m.columns_lt,
      Nat.div_self (show 0 < m.columns from hC)]
  · intro h h1
    simp [iterator.operator_inc, h0, h, Nat.mod_eq_of_lt m.columns_lt,
      Nat.div_self (show 0 < m.columns from hC), Nat.mod_eq_of_lt h1]
  · intro it h
    simp only [iterator.operator_inc, h0, if_false, Except.ok.injEq] at h
    rw [← h]

/-- Witness of C10 on the `2 × 3` matrix: `(0, 1)` moves to `(0, 2)`, and `(0, 2)` wraps
to `(1, 0)`. -/
theorem C10_increment_step_witness :
    (iterator.mk example_2x3 0 1).operator_inc = .ok ⟨example_2x3, 0, 2⟩ ∧
    (iterator.mk example_2x3 0 2).operator_inc = .ok ⟨example_2x3, 1, 0⟩ :=
  ⟨(C10_increment_step example_2x3 0 1 (by decide) (by norm_num [SIZE_MOD])
      (by decide)).1 (by decide),
    (C10_increment_step example_2x3 0 2 (by decide) (by norm_num [SIZE_MOD])
      (by decide)).2.2.1 (by decide) (by norm_num [SIZE_MOD])⟩

/-- C11: at a valid coordinate `(r, c)` the dereference reads the element at `(r, c)`;
after `* it = x` the element at `(r, c)` is `x`, read through `operator ()` and
through the dereference alike, while `rows ()`, `columns ()`, the coordinate of the
cursor and the element at every other coordinate are as before. -/
theorem C11_dereference_slot (m : matrix_base T) (r c : Nat) (x : T) (hr : r < m.rows)
    (hc : c < m.columns) :
    (iterator.mk m r c).operator_deref = m.operator_call r c ∧
    (iterator.mk m r c).operator_deref = .ok (m.data r c) ∧
    ∃ it1 : iterator T, (iterator.mk m r c).operator_deref_assign x = .ok it1 ∧
      it1.m.operator_call r c = .ok x ∧ it1.operator_deref = .ok x ∧
      it1.m.rows = m.rows ∧ it1.m.columns = m.columns ∧ it1.r = r ∧ it1.c = c ∧
      ∀ r1 c1 : Nat, (r1, c1) ≠ (r, c) →
        it1.m.data r1 c1 = m.data r1 c1 ∧ it1.m.operator_call r1 c1 = m.operator_call r1 c1 := by
  refine ⟨rfl, operator_call_in_range m hr hc, ?_⟩
  refine ⟨⟨⟨m.rows, m.columns, fun r1 c1 => if r1 = r ∧ c1 = c then x else m.data r1 c1,
    m.rows_lt, m.columns_lt⟩, r, c⟩, ?_, ?_, ?_, rfl, rfl, rfl, rfl, ?_⟩
  · simp [iterator.operator_deref_assign, matrix_base.operator_call_assign, hr, hc]
  · simp [matrix_base.operator_call, hr, hc]
  · simp [iterator.operator_deref, matrix_base.operator_call, hr, hc]
  · intro r1 c1 hne
    have h : ¬ (r1 = r ∧ c1 = c) := by
      rintro ⟨rfl, rfl⟩
      exact hne rfl
    simp [matrix_base.operator_call, h]

/-- Witness of C11 on the `2 × 3` matrix: writing `7` at `(1, 1)` is read back as `7`. -/
theorem C11_dereference_slot_witness :
    (1 < example_2x3.rows ∧ 1 < example_2x3.columns) ∧
    ∃ it1 : iterator Int, (iterator.mk example_2x3 1 1).operator_deref_assign 7 = .ok it1 ∧
      it1.m.operator_call 1 1 = .ok 7 :=
  ⟨⟨by decide, by decide⟩,
    Exists.imp (fun _ h => ⟨h.1, h.2.1⟩)
      (C11_dereference_slot example_2x3 1 1 7 (by decide) (by decide)).2.2⟩

/-- C12 as stated fails: no stored value that is a denormal or a NaN, of any
floating-point type, makes the classification-based `is_zero` and the comparison
`x == 0.0` give different answers. -/
theorem C12_counterexample :
    ¬ ∃ (F : fp_type) (x : ieee F),
      (fpclassify x = .FP_SUBNORMAL ∨ fpclassify x = .FP_NAN) ∧
      (matrix_1x1 x).is_zero_floating 0 0 ≠ .ok (x.operator_eq (ieee.zero F false)) := by
  rintro ⟨F, x, _, hne⟩
  apply hne
  rw [is_zero_floating_in_range (matrix_1x1 x) Nat.zero_lt_one Nat.zero_lt_one,
    operator_eq_zero]
  rfl

/-- C12 (amended): for every floating-point element type and every valid coordinate, the
classification-based `is_zero` returns what the comparison `x == 0.0` returns on the
stored value `x`; for a denormal and for a NaN both answer `false`. -/
theorem C12_is_zero_agrees_with_equality (F : fp_type) (m : matrix_base (ieee F))
    (r c : Nat) (hr : r < m.rows) (hc : c < m.columns) :
    m.is_zero_floating r c = .ok ((m.data r c).operator_eq (ieee.zero F false)) ∧
    ((fpclassify (m.data r c) = .FP_SUBNORMAL ∨ fpclassify (m.data r c) = .FP_NAN) →
      m.is_zero_floating r c = .ok false ∧
      (m.data r c).operator_eq (ieee.zero F false) = false) := by
  have hz := is_zero_floating_in_range m hr hc
  have he := operator_eq_zero (m.data r c)
  refine ⟨by rw [hz, he], ?_⟩
  intro h
  have hne : ¬ fpclassify (m.data r c) = .FP_ZERO := by
    rcases h with h | h <;> rw [h] <;> exact fun h1 => fp_class.noConfusion h1
  rw [hz, he, decide_eq_false hne]
  exact ⟨rfl, rfl⟩

/-- Witness of C12: for the least subnormal of `double` both tests answer `false`. -/
theorem C12_is_zero_agrees_with_equality_witness :
    fpclassify (ieee.of_bits .double false 1) = .FP_SUBNORMAL ∧
    (matrix_1x1 (ieee.of_bits .double false 1)).is_zero_floating 0 0 = .ok false ∧
    (ieee.of_bits .double false 1).operator_eq (ieee.zero .double false) = false :=
  ⟨by decide,
    (C12_is_zero_agrees_with_equality .double (matrix_1x1 (ieee.of_bits .double false 1)) 0 0
      Nat.zero_lt_one Nat.zero_lt_one).2 (Or.inl (by decide))⟩

/-- C13: on a matrix with `R` rows and `C ≥ 1` columns, every cursor reached from
`begin ()` by fewer than `R * C` increments has `row < R` and `column < C`, so its
dereference reads an element and does not take the out-of-range branch; the traversal
that dereferences every visited cursor ends in no fault, whatever its budget. -/
theorem C13_traversal_in_bounds (m : matrix_base T) (hC : 1 ≤ m.columns) :
    (∀ k : Nat, k < m.rows * m.columns →
      ∃ it : iterator T, m.begin.advance k = .ok it ∧ it.m = m ∧
        it.r < m.rows ∧ it.c < m.columns ∧ it.operator_deref = .ok (m.data it.r it.c)) ∧
    (∀ (fuel : Nat) (e : Error), m.traversal_values fuel ≠ .fault e) := by
  constructor
  · intro k hk
    have hrow : k / m.columns < m.rows := index_div_lt hk
    have hcol : k % m.columns < m.columns := index_mod_lt hk
    refine ⟨⟨m, k / m.columns, k % m.columns⟩,
      advance_begin m hC k (Nat.lt_trans hrow m.rows_lt), rfl, hrow, hcol, ?_⟩
    exact operator_call_in_range m hrow hcol
  · intro fuel e
    by_cases hf : fuel ≤ m.rows * m.columns
    · rw [traversal_values_short m hC fuel hf]
      exact fun h => Outcome.noConfusion h
    · rw [traversal_values_done m hC fuel (by omega)]
      exact fun h => Outcome.noConfusion h

/-- Witness of C13 on the `2 × 3` matrix: the cursor after five increments is in
bounds. -/
theorem C13_traversal_in_bounds_witness :
    1 ≤ example_2x3.columns ∧ 5 < example_2x3.rows * example_2x3.columns ∧
    ∃ it : iterator Int, example_2x3.begin.advance 5 = .ok it ∧
      it.r < example_2x3.rows ∧ it.c < example_2x3.columns :=
  ⟨by decide, by decide,
    Exists.imp (fun _ h => ⟨h.1, h.2.2.1, h.2.2.2.1⟩)
      ((C13_traversal_in_bounds example_2x3 (by decide)).1 5 (by decide))⟩

/-- C14: on a matrix with `C ≥ 1` columns, for any cursor `(r, c)`, also with `c ≥ C`,
such that `c + 1` and `r * C + c + 1` do not overflow `size_t`, one increment yields a
cursor `(r1, c1)` on the same matrix with `c1 < C` and `r1 * C + c1 = r * C + c + 1`. -/
theorem C14_increment_linear_index (m : matrix_base T) (r c : Nat) (hC : 1 ≤ m.columns)
    (hc : c + 1 < SIZE_MOD) (hlin : r * m.columns + c + 1 < SIZE_MOD) :
    ∃ it1 : iterator T, (iterator.mk m r c).operator_inc = .ok it1 ∧ it1.m = m ∧
      it1.c < m.columns ∧ it1.r * m.columns + it1.c = r * m.columns + c + 1 := by
  have hpos : 0 < m.columns := hC
  have hr1 : r ≤ r * m.columns := Nat.le_mul_of_pos_right r hpos
  have hq : (c + 1) / m.columns ≤ c + 1 := Nat.div_le_self _ _
  refine ⟨⟨m, r + (c + 1) / m.columns, (c + 1) % m.columns⟩,
    operator_inc_exact m r c hC hc (by omega), rfl, Nat.mod_lt _ hpos, ?_⟩
  have hdm := Nat.div_add_mod (c + 1) m.columns
  show (r + (c + 1) / m.columns) * m.columns + (c + 1) % m.columns = r * m.columns + c + 1
  rw [Nat.add_mul, Nat.mul_comm ((c + 1) / m.columns) m.columns]
  omega

/-- Witness of C14 on the `2 × 3` matrix: the un-normalised cursor `(0, 7)`, linear index
`7`, moves to `(2, 2)`, linear index `8`. -/
theorem C14_increment_linear_index_witness :
    ∃ it1 : iterator Int, (iterator.mk example_2x3 0 7).operator_inc = .ok it1 ∧
      it1.m = example_2x3 ∧ it1.c < example_2x3.columns ∧
      it1.r * example_2x3.columns + it1.c = 0 * example_2x3.columns + 7 + 1 :=
  C14_increment_linear_index example_2x3 0 7 (by decide) (by norm_num [SIZE_MOD])
    (by norm_num [SIZE_MOD, example_2x3, of_rows])

/-- C15: `operator ++` returns a cursor exactly when the bound matrix has
`columns () ≥ 1`, and takes the division-by-zero branch exactly when `columns () = 0`,
whatever the coordinate of the cursor. -/
theorem C15_increment_defined_iff (it : iterator T) :
    ((∃ it1 : iterator T, it.operator_inc = .ok it1) ↔ 1 ≤ it.m.columns) ∧
    (it.operator_inc = .error .division_by_zero ↔ it.m.columns = 0) ∧
    (∀ e : Error, it.operator_inc = .error e ↔ (e = .division_by_zero ∧ it.m.columns = 0)) := by
  by_cases h0 : it.m.columns = 0
  · have hinc : it.operator_inc = .error .division_by_zero := by
      simp [iterator.operator_inc, h0]
    rw [hinc]
    refine ⟨?_, by simp [h0], ?_⟩
    · simp [h0]
    · intro e
      simp only [Except.error.injEq, h0, and_true]
      exact eq_comm
  · have hinc : it.operator_inc = .ok ⟨it.m,
        (it.r + (it.c + 1) % SIZE_MOD / it.m.columns) % SIZE_MOD,
        (it.c + 1) % SIZE_MOD % it.m.columns⟩ := by
      simp [iterator.operator_inc, h0]
    rw [hinc]
    refine ⟨?_, by simp [h0], ?_⟩
    · constructor
      · intro _; omega
      · intro _; exact ⟨_, rfl⟩
    · intro e
      simp [h0]

/-- C16: `begin () == end ()` holds exactly when `rows () = 0`, whatever `columns ()`;
a matrix with `rows () ≥ 1` and `columns () = 0` has `begin () != end ()`, and on a
matrix with `rows () = 0` the traversal leaves at its first loop test with nothing
visited. -/
theorem C16_begin_eq_end_iff (m : matrix_base T) :
    (m.begin.operator_eq m.end_ = true ↔ m.rows = 0) ∧
    (m.begin.operator_ne m.end_ = true ↔ 1 ≤ m.rows) ∧
    (1 ≤ m.rows → m.columns = 0 → m.begin.operator_ne m.end_ = true) ∧
    (m.rows = 0 → ∀ fuel : Nat,
      m.traversal_coordinates (fuel + 1) = .done [] ∧
      m.traversal_values (fuel + 1) = .done []) := by
  have heq : m.begin.operator_eq m.end_ = true ↔ m.rows = 0 := by
    simp only [iterator.operator_eq, matrix_base.begin, matrix_base.end_, Bool.and_eq_true,
      beq_iff_eq, and_true]
    exact eq_comm
  have hne : m.begin.operator_ne m.end_ = true ↔ 1 ≤ m.rows := by
    simp [iterator.operator_ne, iterator.operator_eq, matrix_base.begin, matrix_base.end_]
    omega
  refine ⟨heq, hne, fun h _ => hne.2 h, ?_⟩
  intro h fuel
  have hno : m.begin.operator_ne m.end_ = false := by
    simp [iterator.operator_ne, heq.2 h]
  simp [matrix_base.traversal_coordinates, matrix_base.traversal_values, for_each, hno]

/-- Witness of C16: the `1 × 0` matrix has `begin () != end ()`, and the `0 × 3` matrix
has an empty traversal. -/
theorem C16_begin_eq_end_iff_witness :
    (example_1x0.begin.operator_ne example_1x0.end_ = true) ∧
    (example_0x3.traversal_coordinates 1 = .done [] ∧
      example_0x3.traversal_values 1 = .done []) :=
  ⟨(C16_begin_eq_end_iff example_1x0).2.2.1 (by decide) (by decide),
    (C16_begin_eq_end_iff example_0x3).2.2.2 (by decide) 0⟩

end munkres_cpp
